import Mathlib

/-!
Verification of the browser-automation core of the ozon-scraper repository.

The development shallowly embeds, in Lean, the parts of the source that the
checked properties are about:

* `src/utils/retry.ts` — the retry executor (`withRetry`, `calculateBackoff`,
  `defaultRetryOptions` and its error classifier);
* `src/utils/browser-helpers.ts` — the bezier path sampler
  (`createBezierPath`) and the cookie serialization round-trip
  (`saveCookiesToFile` / `parseCookieString`);
* `OzonBrowser.handleAccessRestriction` and the retry options object built by
  `OzonBrowser.navigateWithRetry`.

Modelling conventions:

* JS numbers are modelled as ℚ (the checked properties do not depend on
  floating-point rounding); `Math.floor` is `Int.floor`.
* JS strings are modelled as `List Char`; `String.prototype.includes`,
  `toLowerCase`, `trim` and single-separator `split` are re-implemented
  below (`toLowerCase` is modelled on the ASCII and Russian-Cyrillic
  letters, the only ones the scraper's messages use).
* `Math.random()` draws are made explicit: every function that consumes
  randomness takes the drawn values (or a stream `ℕ → ℚ` of them) as an
  argument, with the JS guarantee `0 ≤ r < 1` stated as a hypothesis where
  it matters.
* Promise-returning actions are modelled as pure step functions; the action
  given to `withRetry` is a function `ℕ → Except JsError T` giving the
  outcome of its k-th invocation.  The run is instrumented: it returns the
  final outcome together with the number of invocations made and the list
  of backoff delays (the source calls `onRetry` and sleeps exactly once per
  recorded delay, so `delays = []` also means "no `onRetry` call").
-/

namespace OzonScraper

/-! ## JS string primitives -/

/-- `String.prototype.toLowerCase`, restricted to ASCII `A`–`Z` and the
Cyrillic letters `А`–`Я`/`Ё` that appear in the scraper's messages. -/
def jsToLowerChar (c : Char) : Char :=
  if 'A' ≤ c ∧ c ≤ 'Z' then Char.ofNat (c.toNat + 32)
  else if 'А' ≤ c ∧ c ≤ 'Я' then Char.ofNat (c.toNat + 32)
  else if c = 'Ё' then 'ё'
  else c

/-- `s.toLowerCase()` on a string modelled as a character list. -/
def jsToLower (s : List Char) : List Char :=
  s.map jsToLowerChar

/-- Does `s` start with `pat`? (helper for `jsIncludes`). -/
def jsStartsWith : List Char → List Char → Bool
  | [], _ => true
  | _ :: _, [] => false
  | p :: ps, c :: cs => p = c && jsStartsWith ps cs

/-- `s.includes(pat)` — substring containment. -/
def jsIncludes (pat : List Char) : List Char → Bool
  | [] => jsStartsWith pat []
  | c :: cs => jsStartsWith pat (c :: cs) || jsIncludes pat cs

/-! ## Error model and the default retry classifier (`src/utils/retry.ts`) -/

/-- A thrown JS error as the retry classifier sees it: its `message` string
and, when present and numeric, `error.response.status`. -/
structure JsError where
  message : List Char
  responseStatus : Option ℕ
deriving DecidableEq

/-- The `retryableErrorMessages` substring list of
`defaultRetryOptions.retryableErrors` (retry.ts lines 56–70). -/
def retryableErrorMessages : List (List Char) :=
  [ "timeout".data, "econnreset".data, "econnrefused".data, "epipe".data,
    "etimedout".data, "socket hang up".data, "network error".data,
    "too many requests".data, "server error".data, "limit exceeded".data,
    "доступ ограничен".data, "access restricted".data, "retry".data ]

/-- The message-substring branch of the default classifier: lowercase the
message and test it against `retryableErrorMessages` (retry.ts lines 72–76). -/
def messageRetryCheck (e : JsError) : Bool :=
  let errorMessage := jsToLower e.message
  retryableErrorMessages.any (fun msg => jsIncludes msg errorMessage)

/-- `defaultRetryOptions.retryableErrors` (retry.ts lines 43–77): retry on
`net::ERR` messages; else, when a truthy `error.response.status` is present,
retry exactly on 429 and 5xx; else fall back to the substring list. -/
def defaultRetryableErrors (e : JsError) : Bool :=
  if jsIncludes "net::ERR".data e.message then true
  else
    match e.responseStatus with
    | some status =>
      if status ≠ 0 then decide (status = 429) || (decide (500 ≤ status) && decide (status < 600))
      else messageRetryCheck e
    | none => messageRetryCheck e

/-! ## Retry options and merging -/

/-- The caller-supplied `RetryOptions` object: every field optional
(`undefined` = `none`).  `logging` and `onRetry` are not modelled: `logging`
only logs, and `onRetry` calls are captured by the recorded delay list. -/
structure RetryOptions where
  backoffFactor : Option ℚ := none
  initialDelayMs : Option ℚ := none
  jitter : Option Bool := none
  maxDelayMs : Option ℚ := none
  maxRetries : Option ℕ := none
  retryableErrors : Option (JsError → Bool) := none

/-- The fully-populated (`Required<RetryOptions>`) policy `withRetry` runs
with after merging. -/
structure RetryOptionsMerged where
  backoffFactor : ℚ
  initialDelayMs : ℚ
  jitter : Bool
  maxDelayMs : ℚ
  maxRetries : ℕ
  retryableErrors : JsError → Bool

/-- The merged values of `defaultRetryOptions` (retry.ts lines 32–78). -/
def defaultRetryOptions : RetryOptionsMerged :=
  { backoffFactor := 2
    initialDelayMs := 1000
    jitter := true
    maxDelayMs := 30000
    maxRetries := 3
    retryableErrors := defaultRetryableErrors }

/-- JS `options.x || default` on a numeric field: `undefined` and `0` both
fall back to the default (`0` is falsy). -/
def jsOrNum (o : Option ℚ) (d : ℚ) : ℚ :=
  match o with
  | none => d
  | some v => if v = 0 then d else v

/-- JS `options.x || default` on the (integer) `maxRetries` field. -/
def jsOrNat (o : Option ℕ) (d : ℕ) : ℕ :=
  match o with
  | none => d
  | some v => if v = 0 then d else v

/-- The option merge at the top of `withRetry` (retry.ts lines 122–133):
numeric fields use truthiness (`||`), `jitter` uses an `!== undefined`
check, and the classifier falls back to the default when absent. -/
def mergeRetryOptions (options : RetryOptions) : RetryOptionsMerged :=
  { backoffFactor := jsOrNum options.backoffFactor defaultRetryOptions.backoffFactor
    initialDelayMs := jsOrNum options.initialDelayMs defaultRetryOptions.initialDelayMs
    jitter := options.jitter.getD defaultRetryOptions.jitter
    maxDelayMs := jsOrNum options.maxDelayMs defaultRetryOptions.maxDelayMs
    maxRetries := jsOrNat options.maxRetries defaultRetryOptions.maxRetries
    retryableErrors := options.retryableErrors.getD defaultRetryOptions.retryableErrors }

/-! ## Backoff and the retry loop -/

/-- `calculateBackoff` (retry.ts lines 83–98) with the `Math.random()` draw
`r` made explicit: clamp the exponential delay at `maxDelayMs` first, then,
if jitter is on, scale by `0.7 + r * 0.6` and take `Math.floor`. -/
def calculateBackoff (attempt : ℕ) (o : RetryOptionsMerged) (r : ℚ) : ℚ :=
  let exponentialDelay := min o.maxDelayMs (o.initialDelayMs * o.backoffFactor ^ attempt)
  if o.jitter then
    let jitterFactor := 7 / 10 + r * (6 / 10)
    ((⌊exponentialDelay * jitterFactor⌋ : ℤ) : ℚ)
  else exponentialDelay

/-- Outcome of a `withRetry` run: the value returned or error finally
thrown, the number of invocations of the action, and the backoff delays
slept (one `onRetry` call per entry). -/
structure RetryResult (T : Type) where
  result : Except JsError T
  calls : ℕ
  delays : List ℚ

/-- The `while (attempt <= maxRetries)` loop of `withRetry` (retry.ts lines
135–183), entered having already made `k` invocations (all failed, with the
delays so far in `acc`).  On the next failure the attempt counter becomes
`k + 1`; exhaustion is checked before retryability, exactly as in the
source, and the backoff for the retry uses `attempt - 1 = k`. -/
def withRetryGo {T : Type} (fn : ℕ → Except JsError T) (o : RetryOptionsMerged)
    (rand : ℕ → ℚ) (k : ℕ) (acc : List ℚ) : RetryResult T :=
  match fn k with
  | Except.ok v => ⟨Except.ok v, k + 1, acc⟩
  | Except.error e =>
    if o.maxRetries < k + 1 then ⟨Except.error e, k + 1, acc⟩
    else if o.retryableErrors e then
      withRetryGo fn o rand (k + 1) (acc ++ [calculateBackoff k o (rand k)])
    else ⟨Except.error e, k + 1, acc⟩
termination_by o.maxRetries + 1 - k
decreasing_by omega

/-- `withRetry(fn, options)` (retry.ts lines 117–188) run on an already
merged policy, starting at attempt 0 with no delays slept. -/
def withRetry {T : Type} (fn : ℕ → Except JsError T) (o : RetryOptionsMerged)
    (rand : ℕ → ℚ) : RetryResult T :=
  withRetryGo fn o rand 0 []

/-- The options object `OzonBrowser.navigateWithRetry` passes to `withRetry`
(part_015 lines 1383–1430): fixed backoff parameters, the caller's
`maxRetries` (3 when the caller omits it), and — crucially — no
`retryableErrors` entry, so the merged classifier is the default one. -/
def navigateRetryOptions (maxRetries : ℕ) : RetryOptions :=
  { backoffFactor := some 2
    initialDelayMs := some 2000
    jitter := some true
    maxDelayMs := some 20000
    maxRetries := some maxRetries
    retryableErrors := none }

/-! ## Concrete errors, actions and policies used to instantiate the
theorems on small inputs -/

/-- The error thrown by `handleAccessRestriction` when the restriction page
persists (part_015 lines 1554, 1592, 1611). -/
def errAccessRestricted : JsError := ⟨"Access restricted".data, none⟩

/-- The error thrown by `handleAccessRestriction` when a CAPTCHA surface is
found (part_015 line 1577). -/
def errCaptchaDetected : JsError := ⟨"Captcha detected".data, none⟩

/-- A plain transient error matching the default classifier's `timeout`
substring. -/
def errTimeout : JsError := ⟨"timeout".data, none⟩

/-- An action that fails on every invocation with `Access restricted`. -/
def fnAccessRestricted : ℕ → Except JsError Unit := fun _ => Except.error errAccessRestricted

/-- An action that fails on every invocation with `Captcha detected`. -/
def fnCaptchaDetected : ℕ → Except JsError Unit := fun _ => Except.error errCaptchaDetected

/-- An action that fails on every invocation with a `timeout` error. -/
def fnTimeout : ℕ → Except JsError Unit := fun _ => Except.error errTimeout

/-- A merged policy with `maxDelayMs = 100` smaller than
`initialDelayMs = 1000`, exercising the clamp-then-jitter order. -/
def c4Policy : RetryOptionsMerged :=
  { backoffFactor := 2, initialDelayMs := 1000, jitter := true,
    maxDelayMs := 100, maxRetries := 3, retryableErrors := defaultRetryableErrors }

/-- The default merged policy with jitter on, used to instantiate the
jitter-bounds theorem. -/
def c4WitnessPolicy : RetryOptionsMerged :=
  { backoffFactor := 2, initialDelayMs := 1000, jitter := true,
    maxDelayMs := 30000, maxRetries := 3, retryableErrors := defaultRetryableErrors }

/-- The policy `{initialDelay=100, backoffFactor=2, jitter=false}` of the
spec's backoff-sequence property, with an ample `maxDelayMs`. -/
def c5Policy : RetryOptionsMerged :=
  { backoffFactor := 2, initialDelayMs := 100, jitter := false,
    maxDelayMs := 30000, maxRetries := 3, retryableErrors := defaultRetryableErrors }

/-- A caller-supplied options object passing explicit zeros for every
numeric field. -/
def zeroRetryOptions : RetryOptions :=
  { backoffFactor := some 0, initialDelayMs := some 0,
    maxDelayMs := some 0, maxRetries := some 0 }

/-! ## Point/path geometry (`createBezierPath`, browser-helpers.ts 47–167)

`Math.sqrt` is kept abstract as a parameter `sqrtFn` (its only uses here are
the distance computations; the endpoint/length properties hold for every
value it returns, and the degenerate case only needs `sqrtFn 0 = 0`, which
`Math.sqrt` satisfies exactly).  The `Math.random()` draws are a stream
`rand`; control point `i` consumes draws `2*i` and `2*i+1`. -/

/-- A 2D page-space point. -/
@[ext]
structure Pt where
  x : ℚ
  y : ℚ
deriving DecidableEq

/-- One linear interpolation of De Casteljau's inner loop
(browser-helpers.ts lines 129–132). -/
def lerpPt (t : ℚ) (p0 p1 : Pt) : Pt :=
  ⟨(1 - t) * p0.x + t * p1.x, (1 - t) * p0.y + t * p1.y⟩

/-- One pass of the inner `for j` loop: adjacent interpolations. -/
def deCasteljauStep (t : ℚ) : List Pt → List Pt
  | p0 :: p1 :: rest => lerpPt t p0 p1 :: deCasteljauStep t (p1 :: rest)
  | _ => []

lemma deCasteljauStep_length (t : ℚ) (l : List Pt) :
    (deCasteljauStep t l).length = l.length - 1 := by
  induction l with
  | nil => simp [deCasteljauStep]
  | cons p rest ih =>
    cases rest with
    | nil => simp [deCasteljauStep]
    | cons q rest2 =>
      simp only [deCasteljauStep, List.length_cons]
      rw [ih]
      simp

/-- The outer `for i` loop of `calculateBezierPoint` with its early `break`
at a single remaining point; returns `currentPoints[0]` (the empty case is
unreachable in the source, which always passes `start` and `end`). -/
def deCasteljau (t : ℚ) : List Pt → Pt
  | [] => ⟨0, 0⟩
  | [p] => p
  | p0 :: p1 :: rest => deCasteljau t (deCasteljauStep t (p0 :: p1 :: rest))
termination_by l => l.length
decreasing_by
  simp [deCasteljauStep_length]

/-- The interpolation parameter assigned to control point `i`
(browser-helpers.ts lines 83–96): the midpoint for a single control point,
otherwise an ease-in-out redistribution of `(i+1)/(count+1)`. -/
def controlT (count i : ℕ) : ℚ :=
  if count = 1 then 1 / 2
  else
    let t : ℚ := (i + 1) / (count + 1)
    if t < 1 / 2 then 2 * t * t else -1 + (4 - 2 * t) * t

/-- `getPointWithVariance` (browser-helpers.ts lines 57–77) with its two
`Math.random()` draws `rx`, `ry` explicit. -/
def getPointWithVariance (sqrtFn : ℚ → ℚ) (start endP : Pt)
    (t varianceFactor rx ry : ℚ) : Pt :=
  let linearX := start.x + (endP.x - start.x) * t
  let linearY := start.y + (endP.y - start.y) * t
  let distance := sqrtFn ((endP.x - start.x) ^ 2 + (endP.y - start.y) ^ 2)
  let maxVariance := distance * varianceFactor
  ⟨linearX + (rx * 2 - 1) * maxVariance, linearY + (ry * 2 - 1) * maxVariance⟩

/-- The control points generated by the `for i` loop
(browser-helpers.ts lines 80–99). -/
def bezierControlPoints (sqrtFn : ℚ → ℚ) (rand : ℕ → ℚ) (start endP : Pt)
    (count : ℕ) (randomness : ℚ) : List Pt :=
  (List.range count).map fun i =>
    getPointWithVariance sqrtFn start endP (controlT count i) randomness
      (rand (2 * i)) (rand (2 * i + 1))

/-- `numPoints = Math.max(10, Math.floor(distance / 10))`
(browser-helpers.ts lines 103–107). -/
def bezierNumPoints (sqrtFn : ℚ → ℚ) (start endP : Pt) : ℕ :=
  max 10 (Int.toNat ⌊sqrtFn ((endP.x - start.x) ^ 2 + (endP.y - start.y) ^ 2) / 10⌋)

/-- The three-phase easing applied to the sweep parameter
(browser-helpers.ts lines 148–161). -/
def easeT (t : ℚ) : ℚ :=
  if t < 1 / 5 then t * t * 5
  else if 4 / 5 < t then 1 - (1 - t) * (1 - t) * 5
  else t

/-- `calculateBezierPoint` (browser-helpers.ts lines 112–141): De Casteljau
on `[start, ...controlPoints, end]`. -/
def calculateBezierPoint (start endP : Pt) (controlPoints : List Pt) (t : ℚ) : Pt :=
  deCasteljau t (start :: (controlPoints ++ [endP]))

/-- `createBezierPath` (browser-helpers.ts lines 47–167): sample
`numPoints + 1` eased parameters along the curve. -/
def createBezierPath (sqrtFn : ℚ → ℚ) (rand : ℕ → ℚ) (start endP : Pt)
    (controlPointsCount : ℕ) (randomness : ℚ) : List Pt :=
  let controlPoints := bezierControlPoints sqrtFn rand start endP controlPointsCount randomness
  let numPoints := bezierNumPoints sqrtFn start endP
  (List.range (numPoints + 1)).map (fun i : ℕ =>
    calculateBezierPoint start endP controlPoints (easeT ((i : ℚ) / (numPoints : ℚ))))

/-! ## Challenge detection and recovery
(`OzonBrowser.handleAccessRestriction`, part_015 lines 1453–1625)

The page is abstracted as an oracle answering, in source order, each of the
checks the handler performs.  Throwing `new Error('Access restricted')` /
`new Error('Captcha detected')` is modelled as the corresponding outcome;
returning normally is `cleared`.  Screenshots, logging, delays and the idle
`simulateHumanBehavior` bursts have no bearing on control flow and are not
modelled; `clickElementHumanLike` returns a boolean and never throws. -/

/-- How a `handleAccessRestriction` call resolves. -/
inductive ChallengeOutcome where
  | cleared
  | accessRestricted
  | captchaDetected
deriving DecidableEq

/-- Oracle answers for the page checks, in the order the source makes them. -/
structure PageOracle where
  /-- some challenge selector matched within its 1s timeout (lines 1466–1477) -/
  selectorFound : Bool
  /-- the initial `page.content()` contains a restriction indicator (lines 1479–1495) -/
  contentHasRestriction : Bool
  /-- first `clickElementHumanLike('#reload-button')` found the button (line 1515) -/
  reloadClick1 : Bool
  /-- body text still has `Доступ ограничен` after the first reload (line 1526) -/
  stillRestricted1 : Bool
  /-- second `clickElementHumanLike('#reload-button')` found the button (line 1537) -/
  reloadClick2 : Bool
  /-- body text still restricted at the final check (line 1548) -/
  stillRestricted2 : Bool
  /-- a CAPTCHA widget/iframe is present (lines 1562–1569) -/
  captchaFound : Bool
  /-- content still restricted after the last-resort human simulation (line 1586) -/
  contentRestrictedAfterSim : Bool
deriving DecidableEq

/-- `handleAccessRestriction` over the page oracle.  Returns the outcome
together with the number of reload-button click attempts made
(`clickElementHumanLike('#reload-button')` calls). -/
def handleAccessRestriction (p : PageOracle) : ChallengeOutcome × ℕ :=
  let challengeDetected := p.selectorFound || p.contentHasRestriction
  if challengeDetected then
    if p.reloadClick1 then
      if p.stillRestricted1 then
        if p.stillRestricted2 then (ChallengeOutcome.accessRestricted, 2)
        else (ChallengeOutcome.cleared, 2)
      else (ChallengeOutcome.cleared, 1)
    else
      if p.captchaFound then (ChallengeOutcome.captchaDetected, 1)
      else if p.contentRestrictedAfterSim then (ChallengeOutcome.accessRestricted, 1)
      else (ChallengeOutcome.cleared, 1)
  else (ChallengeOutcome.cleared, 0)

/-! ## Cookie persistence (`saveCookiesToFile` / `parseCookieString`,
browser-helpers.ts 866–935)

Strings are `List Char`; `fs.writeFile` is not modelled — `saveCookiesToFile`
returns the serialized blob, which is also what it writes. -/

/-- The whitespace characters relevant to `String.prototype.trim` in these
blobs. -/
def isJsWhitespace (c : Char) : Bool :=
  (c == ' ') || (c == '\t') || (c == '\n') || (c == '\r')

/-- `s.trim()`: strip whitespace from both ends. -/
def jsTrim (l : List Char) : List Char :=
  ((l.dropWhile isJsWhitespace).reverse.dropWhile isJsWhitespace).reverse

/-- `s.split(sep)` for a single-character separator: JS semantics, so the
result is never empty and empty fields are kept. -/
def splitOnChar (sep : Char) : List Char → List (List Char)
  | [] => [[]]
  | c :: cs =>
    match splitOnChar sep cs with
    | [] => [[]]
    | h :: t => if c = sep then [] :: h :: t else (c :: h) :: t

/-- `arr.join(sep)`. -/
def jsJoin (sep : List Char) : List (List Char) → List Char
  | [] => []
  | [l] => l
  | l :: l2 :: rest => l ++ sep ++ jsJoin sep (l2 :: rest)

/-- A cookie record as `saveCookiesToFile` receives it (a Playwright cookie:
all six fields present; absent string attributes are `''`). -/
structure SavedCookie where
  name : List Char
  value : List Char
  domain : List Char
  path : List Char
  secure : Bool
  sameSite : List Char
deriving DecidableEq

/-- A parsed `CookieParams` record.  The attribute fields are optional
because the parser assigns `attr.split('=')[1]`, which is `undefined`
(`none`) for a valueless attribute. -/
structure CookieParams where
  name : List Char
  value : List Char
  domain : Option (List Char)
  path : Option (List Char)
  secure : Bool
  sameSite : Option (List Char)
deriving DecidableEq

/-- One line of `saveCookiesToFile` (browser-helpers.ts lines 918–929):
`name=value` then the truthy attributes, joined by `'; '`. -/
def serializeCookie (c : SavedCookie) : List Char :=
  jsJoin "; ".data
    ([c.name ++ '=' :: c.value]
      ++ (if c.domain = [] then [] else ["domain".data ++ '=' :: c.domain])
      ++ (if c.path = [] then [] else ["path".data ++ '=' :: c.path])
      ++ (if c.secure then ["secure".data] else [])
      ++ (if c.sameSite = [] then [] else ["samesite".data ++ '=' :: c.sameSite]))

/-- `saveCookiesToFile` (browser-helpers.ts lines 916–935): the serialized
blob (also the function's return value). -/
def saveCookiesToFile (cookies : List SavedCookie) : List Char :=
  jsJoin ['\n'] (cookies.map serializeCookie)

/-- The four independent `if`s of the attribute loop
(browser-helpers.ts lines 895–906), applied to an already split
lowercased-and-trimmed `[key, val]` pair. -/
def applyCookieKeyVal (cookie : CookieParams) (key : List Char)
    (val : Option (List Char)) : CookieParams :=
  let c1 := if key = "domain".data then { cookie with domain := val } else cookie
  let c2 := if key = "path".data then { c1 with path := val } else c1
  let c3 := if key = "secure".data then { c2 with secure := true } else c2
  if key = "samesite".data then { c3 with sameSite := val } else c3

/-- The attribute loop body of `parseCookieString` (browser-helpers.ts lines
889–907): split on `=`, lowercase-and-trim both sides (`val` is
`undefined` — `none` — when the attribute has no `=`), and apply the four
`if`s. -/
def applyCookieAttr (cookie : CookieParams) (attr : List Char) : CookieParams :=
  applyCookieKeyVal cookie
    (((splitOnChar '=' attr).map (fun s => jsTrim (jsToLower s))).headD [])
    (((splitOnChar '=' attr).map (fun s => jsTrim (jsToLower s))).get? 1)

/-- The defaulted record built from the split `name=value` part
(browser-helpers.ts lines 877–887); a missing value becomes `''` via
`value || ''`. -/
def parseCookieInit (nv : List (List Char)) : CookieParams :=
  { name := nv.headD []
    value := (nv.get? 1).getD []
    domain := some []
    path := some "/".data
    secure := false
    sameSite := some "None".data }

/-- One line of `parseCookieString` (browser-helpers.ts lines 872–910):
split on `;`, trim the parts, read `name=value` from the first, then fold
the attributes over the defaulted record. -/
def parseCookieLine (line : List Char) : CookieParams :=
  (((splitOnChar ';' line).map jsTrim).tail).foldl applyCookieAttr
    (parseCookieInit (splitOnChar '=' (((splitOnChar ';' line).map jsTrim).headD [])))

/-- `parseCookieString` (browser-helpers.ts lines 866–911): split the blob
on newlines, keep the lines that are nonempty after trimming, parse each. -/
def parseCookieString (s : List Char) : List CookieParams :=
  ((splitOnChar '\n' s).filter (fun line => jsTrim line != [])).map parseCookieLine

/-- The characters the round-trip statement allows in cookie fields:
ASCII letters, digits and common cookie punctuation — in particular no `=`,
`;`, newline or whitespace. -/
def cookieChars : List Char :=
  "abcdefghijklmnopqrstuvwxyzABCDEFGHIJKLMNOPQRSTUVWXYZ0123456789./-_".data

/-- A field made only of `cookieChars`. -/
def plainCookieStr (l : List Char) : Bool :=
  l.all (fun c => cookieChars.contains c)

/-- All five string fields of a saved cookie are plain. -/
def plainSavedCookie (c : SavedCookie) : Bool :=
  plainCookieStr c.name && plainCookieStr c.value && plainCookieStr c.domain &&
    plainCookieStr c.path && plainCookieStr c.sameSite

/-- What one serialized-then-parsed cookie comes back as: `name`, `value`
and `secure` survive unchanged; `domain`, `path` and `sameSite` come back
lowercased (with the parser's defaults `'/'` and `'None'` when the saved
field was empty and its attribute therefore omitted). -/
def parsedOfSaved (c : SavedCookie) : CookieParams :=
  { name := c.name
    value := c.value
    domain := some (jsToLower c.domain)
    path := some (if c.path = [] then "/".data else jsToLower c.path)
    secure := c.secure
    sameSite := some (if c.sameSite = [] then "None".data else jsToLower c.sameSite) }

/-- A concrete cookie whose `sameSite` is the capitalized `Lax` literal the
source's `CookieParams` type uses. -/
def laxCookie : SavedCookie :=
  ⟨"a".data, "b".data, "example.com".data, "/".data, true, "Lax".data⟩

/-! # Theorems -/

/-! ## Retry executor -/

/-- Unrolling the retry loop while every invocation fails retryably: from
`k` failed invocations it runs to exhaustion, finishing with the error of
invocation `maxRetries` after backing off once per intermediate attempt. -/
lemma withRetryGo_allFail {T : Type} (fn : ℕ → Except JsError T) (o : RetryOptionsMerged)
    (rand : ℕ → ℚ)
    (hfail : ∀ k, ∃ e, fn k = Except.error e ∧ o.retryableErrors e = true) :
    ∀ (j k : ℕ) (acc : List ℚ), o.maxRetries + 1 = k + j → k ≤ o.maxRetries →
      withRetryGo fn o rand k acc =
        ⟨fn o.maxRetries, o.maxRetries + 1,
          acc ++ (List.range' k (o.maxRetries - k)).map (fun i => calculateBackoff i o (rand i))⟩ := by
  intro j
  induction j with
  | zero => intro k acc hj hk; omega
  | succ j ih =>
    intro k acc hj hk
    obtain ⟨e, hke, hre⟩ := hfail k
    rcases Nat.lt_or_ge k o.maxRetries with hlt | hge
    · rw [withRetryGo, hke]
      dsimp only
      rw [if_neg (by omega), if_pos hre]
      rw [ih (k + 1) (acc ++ [calculateBackoff k o (rand k)]) (by omega) (by omega)]
      have hrange : o.maxRetries - k = (o.maxRetries - (k + 1)) + 1 := by omega
      rw [hrange, List.range'_succ, List.map_cons, List.append_assoc]
      simp
    · have hkeq : k = o.maxRetries := le_antisymm hk hge
      subst hkeq
      rw [withRetryGo, hke]
      dsimp only
      rw [if_pos (by omega)]
      simp [hke]

/-- If the very first invocation fails with an error the policy's
classifier rejects, the run stops there: one invocation, no backoff, the
error rethrown. -/
lemma withRetry_first_error_nonretryable {T : Type} (fn : ℕ → Except JsError T)
    (o : RetryOptionsMerged) (rand : ℕ → ℚ) (e : JsError)
    (h0 : fn 0 = Except.error e) (hnr : o.retryableErrors e = false) :
    withRetry fn o rand = ⟨Except.error e, 1, []⟩ := by
  unfold withRetry
  rw [withRetryGo, h0]
  dsimp only
  rcases Nat.lt_or_ge o.maxRetries (0 + 1) with hm | hm
  · rw [if_pos hm]
  · rw [if_neg (by omega), if_neg (by simp [hnr])]

/-- C2: for every action that fails on every invocation with an error the
merged policy classifies as retryable, and every merged policy with
`maxRetries = N` (`N ≥ 1`), `withRetry` invokes the action exactly `N + 1`
times and rethrows the error raised by the last ((N+1)-th) invocation. -/
theorem withRetry_exhausts_all_retries {T : Type} (fn : ℕ → Except JsError T)
    (o : RetryOptionsMerged) (rand : ℕ → ℚ) (N : ℕ)
    (hN : 1 ≤ N) (hmax : o.maxRetries = N)
    (hfail : ∀ k, ∃ e, fn k = Except.error e ∧ o.retryableErrors e = true) :
    (withRetry fn o rand).calls = N + 1 ∧ (withRetry fn o rand).result = fn N := by
  have h := withRetryGo_allFail fn o rand hfail (o.maxRetries + 1) 0 [] (by omega) (by omega)
  unfold withRetry
  rw [h, hmax]
  exact ⟨rfl, rfl⟩

/-- Instantiation of `withRetry_exhausts_all_retries`: the default policy
(`maxRetries = 3`) on an always-timing-out action makes 4 invocations and
rethrows the fourth invocation's error. -/
theorem withRetry_exhausts_all_retries_witness :
    (withRetry fnTimeout defaultRetryOptions (fun _ => 0)).calls = 3 + 1 ∧
    (withRetry fnTimeout defaultRetryOptions (fun _ => 0)).result = fnTimeout 3 :=
  withRetry_exhausts_all_retries fnTimeout defaultRetryOptions (fun _ => 0) 3
    (by decide) rfl (fun _ => ⟨errTimeout, rfl, by decide⟩)

/-- C3: when the first invocation fails with an error for which the
policy's classifier returns `false`, `withRetry` invokes the action exactly
once and rethrows that error immediately — no backoff delay and no
`onRetry` call (an empty delay list), regardless of the configured
`maxRetries`. -/
theorem withRetry_nonretryable_rethrows_immediately {T : Type} (fn : ℕ → Except JsError T)
    (o : RetryOptionsMerged) (rand : ℕ → ℚ) (e : JsError)
    (h0 : fn 0 = Except.error e) (hnr : o.retryableErrors e = false) :
    withRetry fn o rand = ⟨Except.error e, 1, []⟩ :=
  withRetry_first_error_nonretryable fn o rand e h0 hnr

/-- Instantiation of `withRetry_nonretryable_rethrows_immediately` at the
non-retryable `Captcha detected` error under the default policy. -/
theorem withRetry_nonretryable_rethrows_immediately_witness :
    withRetry fnCaptchaDetected defaultRetryOptions (fun _ => 0) =
      ⟨Except.error errCaptchaDetected, 1, []⟩ :=
  withRetry_nonretryable_rethrows_immediately fnCaptchaDetected defaultRetryOptions
    (fun _ => 0) errCaptchaDetected rfl (by decide)

/-- C5: under a merged policy with `initialDelay = 100`, `backoffFactor = 2`,
`jitter = false`, `maxDelay ≥ 400` and `maxRetries = 3`, a persistently
retryably-failing action yields exactly the delays `[100, 200, 400]` for
its three retries. -/
theorem backoff_sequence_100_200_400 {T : Type} (fn : ℕ → Except JsError T)
    (o : RetryOptionsMerged) (rand : ℕ → ℚ)
    (hinit : o.initialDelayMs = 100) (hbf : o.backoffFactor = 2) (hjit : o.jitter = false)
    (hmd : 400 ≤ o.maxDelayMs) (hmax : o.maxRetries = 3)
    (hfail : ∀ k, ∃ e, fn k = Except.error e ∧ o.retryableErrors e = true) :
    (withRetry fn o rand).delays = [100, 200, 400] := by
  have h := withRetryGo_allFail fn o rand hfail (o.maxRetries + 1) 0 [] (by omega) (by omega)
  unfold withRetry
  rw [h, hmax]
  have hr : List.range' 0 (3 - 0) = [0, 1, 2] := rfl
  rw [hr]
  simp only [List.map_cons, List.map_nil, List.nil_append]
  have hb : ∀ i : ℕ, i ≤ 2 → calculateBackoff i o (rand i) = 100 * 2 ^ i := by
    intro i hi
    unfold calculateBackoff
    rw [hjit, hinit, hbf]
    simp only [Bool.false_eq_true, if_false]
    refine min_eq_right ?_
    calc (100 : ℚ) * 2 ^ i ≤ 100 * 2 ^ 2 := by
          have : (2 : ℚ) ^ i ≤ 2 ^ 2 := by
            refine pow_le_pow_right₀ (by norm_num) hi
          linarith
      _ ≤ o.maxDelayMs := by norm_num at hmd ⊢; linarith
  rw [hb 0 (by omega), hb 1 (by omega), hb 2 (by omega)]
  norm_num

/-- Instantiation of `backoff_sequence_100_200_400` at the concrete policy
`c5Policy` and an always-timing-out action. -/
theorem backoff_sequence_100_200_400_witness :
    (withRetry fnTimeout c5Policy (fun _ => 0)).delays = [100, 200, 400] :=
  backoff_sequence_100_200_400 fnTimeout c5Policy (fun _ => 0)
    rfl rfl rfl (by norm_num [c5Policy]) rfl (fun _ => ⟨errTimeout, rfl, by decide⟩)

/-- C10: the merge at the top of `withRetry` uses JS truthiness (`||`) for
the numeric fields, so explicitly passing `0` for `maxRetries`,
`initialDelayMs`, `backoffFactor` and `maxDelayMs` silently restores every
built-in default; in particular a caller requesting `maxRetries = 0` on an
always-retryably-failing action gets 4 invocations (default 3 retries plus
the initial attempt), not one. -/
theorem zero_options_replaced_by_defaults {T : Type} (fn : ℕ → Except JsError T)
    (rand : ℕ → ℚ)
    (hfail : ∀ k, ∃ e, fn k = Except.error e ∧ defaultRetryableErrors e = true) :
    mergeRetryOptions zeroRetryOptions = defaultRetryOptions ∧
    (withRetry fn (mergeRetryOptions zeroRetryOptions) rand).calls = 4 := by
  have hm : mergeRetryOptions zeroRetryOptions = defaultRetryOptions := by
    simp [mergeRetryOptions, zeroRetryOptions, jsOrNum, jsOrNat]
  refine ⟨hm, ?_⟩
  rw [hm]
  have h := withRetryGo_allFail fn defaultRetryOptions rand
    (fun k => hfail k) (defaultRetryOptions.maxRetries + 1) 0 [] (by omega) (by omega)
  unfold withRetry
  rw [h]
  rfl

/-- Instantiation of `zero_options_replaced_by_defaults` at an
always-timing-out action. -/
theorem zero_options_replaced_by_defaults_witness :
    mergeRetryOptions zeroRetryOptions = defaultRetryOptions ∧
    (withRetry fnTimeout (mergeRetryOptions zeroRetryOptions) (fun _ => 0)).calls = 4 :=
  zero_options_replaced_by_defaults fnTimeout (fun _ => 0)
    (fun _ => ⟨errTimeout, rfl, by decide⟩)

/-- C4 counterexample: `calculateBackoff` clamps at `maxDelayMs` before
jitter, so with `initialDelay = 1000`, `backoffFactor = 2`,
`maxDelay = 100` (all positive) and the legal draw `r = 5/6`
(`Math.random() ∈ [0,1)`), the attempt-0 delay is `⌊100 * 1.2⌋ = 120`:
it exceeds `maxDelay = 100` and lies below `0.7 * (initialDelay *
backoffFactor^0) = 700`, refuting both parts of the claim. -/
theorem calculateBackoff_jitter_exceeds_maxDelay :
    (0 : ℚ) ≤ 5 / 6 ∧ (5 / 6 : ℚ) < 1 ∧
    0 < c4Policy.initialDelayMs ∧ 0 < c4Policy.backoffFactor ∧ 0 < c4Policy.maxDelayMs ∧
    c4Policy.jitter = true ∧
    calculateBackoff 0 c4Policy (5 / 6) = 120 ∧
    c4Policy.maxDelayMs < calculateBackoff 0 c4Policy (5 / 6) ∧
    calculateBackoff 0 c4Policy (5 / 6) <
      (7 / 10) * (c4Policy.initialDelayMs * c4Policy.backoffFactor ^ 0) := by
  have hb : calculateBackoff 0 c4Policy (5 / 6) = 120 := by
    unfold calculateBackoff c4Policy
    norm_num [min_def]
  refine ⟨by norm_num, by norm_num, ?_, ?_, ?_, rfl, hb, ?_, ?_⟩
  · norm_num [c4Policy]
  · norm_num [c4Policy]
  · norm_num [c4Policy]
  · rw [show c4Policy.maxDelayMs = (100 : ℚ) from rfl, hb]
    norm_num
  · rw [hb, show c4Policy.initialDelayMs = (1000 : ℚ) from rfl,
      show c4Policy.backoffFactor = (2 : ℚ) from rfl]
    norm_num

/-- C4 amended: with jitter on and a draw `r ∈ [0,1)`, the delay for
attempt `n` is `⌊E * (0.7 + 0.6r)⌋` where `E = min(maxDelay,
initialDelay * backoffFactor^n)` — the clamp is applied before the jitter,
not after — and therefore lies in the half-open band
`(0.7*E - 1, 1.3*E]` around the clamped exponential delay `E` (so it may
exceed `maxDelay` by up to 30% whenever the clamp was active). -/
theorem calculateBackoff_jitter_bounds (n : ℕ) (o : RetryOptionsMerged) (r : ℚ)
    (hjit : o.jitter = true) (hr0 : 0 ≤ r) (hr1 : r < 1)
    (hinit : 0 < o.initialDelayMs) (hbf : 0 < o.backoffFactor) (hmd : 0 < o.maxDelayMs) :
    calculateBackoff n o r =
      ((⌊min o.maxDelayMs (o.initialDelayMs * o.backoffFactor ^ n) *
          (7 / 10 + r * (6 / 10))⌋ : ℤ) : ℚ) ∧
    (7 / 10) * min o.maxDelayMs (o.initialDelayMs * o.backoffFactor ^ n) - 1 <
      calculateBackoff n o r ∧
    calculateBackoff n o r ≤
      (13 / 10) * min o.maxDelayMs (o.initialDelayMs * o.backoffFactor ^ n) := by
  have hE : 0 < min o.maxDelayMs (o.initialDelayMs * o.backoffFactor ^ n) :=
    lt_min hmd (mul_pos hinit (pow_pos hbf n))
  set E := min o.maxDelayMs (o.initialDelayMs * o.backoffFactor ^ n) with hEdef
  have hdef : calculateBackoff n o r = ((⌊E * (7 / 10 + r * (6 / 10))⌋ : ℤ) : ℚ) := by
    unfold calculateBackoff
    rw [hjit]
    simp
  refine ⟨hdef, ?_, ?_⟩
  · rw [hdef]
    have h1 : (7 / 10) * E ≤ E * (7 / 10 + r * (6 / 10)) := by nlinarith
    have h2 : E * (7 / 10 + r * (6 / 10)) - 1 < ((⌊E * (7 / 10 + r * (6 / 10))⌋ : ℤ) : ℚ) :=
      Int.sub_one_lt_floor _
    linarith
  · rw [hdef]
    have h1 : E * (7 / 10 + r * (6 / 10)) ≤ (13 / 10) * E := by nlinarith
    have h2 : ((⌊E * (7 / 10 + r * (6 / 10))⌋ : ℤ) : ℚ) ≤ E * (7 / 10 + r * (6 / 10)) :=
      Int.floor_le _
    linarith

/-- Instantiation of `calculateBackoff_jitter_bounds` at the default-like
jittered policy `c4WitnessPolicy`, attempt 0, draw `r = 0`. -/
theorem calculateBackoff_jitter_bounds_witness :
    calculateBackoff 0 c4WitnessPolicy 0 =
      ((⌊min c4WitnessPolicy.maxDelayMs
            (c4WitnessPolicy.initialDelayMs * c4WitnessPolicy.backoffFactor ^ 0) *
          (7 / 10 + 0 * (6 / 10))⌋ : ℤ) : ℚ) ∧
    (7 / 10) * min c4WitnessPolicy.maxDelayMs
        (c4WitnessPolicy.initialDelayMs * c4WitnessPolicy.backoffFactor ^ 0) - 1 <
      calculateBackoff 0 c4WitnessPolicy 0 ∧
    calculateBackoff 0 c4WitnessPolicy 0 ≤
      (13 / 10) * min c4WitnessPolicy.maxDelayMs
        (c4WitnessPolicy.initialDelayMs * c4WitnessPolicy.backoffFactor ^ 0) :=
  calculateBackoff_jitter_bounds 0 c4WitnessPolicy 0 rfl le_rfl (by norm_num)
    (by norm_num [c4WitnessPolicy]) (by norm_num [c4WitnessPolicy])
    (by norm_num [c4WitnessPolicy])

/-- C1 counterexample: `Access restricted` matches the default classifier's
own `'access restricted'` substring, so under the exact options
`navigateWithRetry` builds (which omit `retryableErrors`, leaving the
default classifier) with `maxRetries = 1`, an action that raises
`Access restricted` on its first invocation is invoked a second time — the
error is retried, not rethrown on first occurrence. -/
theorem access_restricted_is_retried_counterexample :
    defaultRetryableErrors errAccessRestricted = true ∧
    (mergeRetryOptions (navigateRetryOptions 1)).retryableErrors = defaultRetryableErrors ∧
    (withRetry fnAccessRestricted (mergeRetryOptions (navigateRetryOptions 1))
        (fun _ => 0)).calls = 2 := by
  refine ⟨by decide, rfl, ?_⟩
  simp [withRetry, withRetryGo, mergeRetryOptions, jsOrNat, jsOrNum,
    navigateRetryOptions, fnAccessRestricted]
  decide

/-- C1 amended: of the two detection events the challenge handler raises,
only `Captcha detected` is non-retryable under the default classifier — for
any policy using that classifier (in particular the one `navigateWithRetry`
merges, for every `maxRetries`), an action whose first invocation raises it
is invoked exactly once and the error rethrown with no backoff.
`Access restricted`, by contrast, is classified retryable (its message is a
listed substring), so `navigateWithRetry` does re-attempt navigation after
its challenge handler raises it. -/
theorem default_classifier_on_detection_events {T : Type} (fn : ℕ → Except JsError T)
    (o : RetryOptionsMerged) (rand : ℕ → ℚ)
    (hcls : o.retryableErrors = defaultRetryableErrors)
    (h0 : fn 0 = Except.error errCaptchaDetected) :
    defaultRetryableErrors errCaptchaDetected = false ∧
    defaultRetryableErrors errAccessRestricted = true ∧
    (∀ mr, (mergeRetryOptions (navigateRetryOptions mr)).retryableErrors =
      defaultRetryableErrors) ∧
    withRetry fn o rand = ⟨Except.error errCaptchaDetected, 1, []⟩ := by
  refine ⟨by decide, by decide, fun _ => rfl, ?_⟩
  refine withRetry_first_error_nonretryable fn o rand errCaptchaDetected h0 ?_
  rw [hcls]
  decide

/-- Instantiation of `default_classifier_on_detection_events` at the
options `navigateWithRetry` builds with its default `maxRetries = 3`. -/
theorem default_classifier_on_detection_events_witness :
    defaultRetryableErrors errCaptchaDetected = false ∧
    defaultRetryableErrors errAccessRestricted = true ∧
    (∀ mr, (mergeRetryOptions (navigateRetryOptions mr)).retryableErrors =
      defaultRetryableErrors) ∧
    withRetry fnCaptchaDetected (mergeRetryOptions (navigateRetryOptions 3)) (fun _ => 0) =
      ⟨Except.error errCaptchaDetected, 1, []⟩ :=
  default_classifier_on_detection_events fnCaptchaDetected
    (mergeRetryOptions (navigateRetryOptions 3)) (fun _ => 0) rfl rfl

/-! ## Challenge recovery -/

/-- C6: `handleAccessRestriction` makes at most 2 reload-click attempts
(one beyond the first) on every page; once the challenge is detected and
the reload control found, a phrase still present after the single allowed
extra attempt raises `Access restricted`, a phrase absent at either
re-check returns normally, and a page with neither challenge markers nor
the phrase is a no-op that returns normally with no reload attempt. -/
theorem challenge_recovery_single_extra_reload (p : PageOracle) :
    (handleAccessRestriction p).2 ≤ 2 ∧
    ((p.selectorFound || p.contentHasRestriction) = true → p.reloadClick1 = true →
      p.stillRestricted1 = true → p.stillRestricted2 = true →
      handleAccessRestriction p = (ChallengeOutcome.accessRestricted, 2)) ∧
    ((p.selectorFound || p.contentHasRestriction) = true → p.reloadClick1 = true →
      p.stillRestricted1 = true → p.stillRestricted2 = false →
      handleAccessRestriction p = (ChallengeOutcome.cleared, 2)) ∧
    ((p.selectorFound || p.contentHasRestriction) = true → p.reloadClick1 = true →
      p.stillRestricted1 = false →
      handleAccessRestriction p = (ChallengeOutcome.cleared, 1)) ∧
    (p.selectorFound = false → p.contentHasRestriction = false →
      handleAccessRestriction p = (ChallengeOutcome.cleared, 0)) := by
  obtain ⟨sf, chr, rc1, sr1, rc2, sr2, cf, cras⟩ := p
  cases sf <;> cases chr <;> cases rc1 <;> cases sr1 <;> cases sr2 <;>
    cases cf <;> cases cras <;>
      simp [handleAccessRestriction]

/-- Instantiation of `challenge_recovery_single_extra_reload`: a page whose
restriction phrase survives both reload attempts raises
`Access restricted` after exactly 2 click attempts. -/
theorem challenge_recovery_single_extra_reload_witness :
    handleAccessRestriction ⟨true, true, true, true, true, true, false, false⟩ =
      (ChallengeOutcome.accessRestricted, 2) :=
  (challenge_recovery_single_extra_reload
    ⟨true, true, true, true, true, true, false, false⟩).2.1 rfl rfl rfl rfl

/-! ## Path geometry -/

lemma lerpPt_zero (p q : Pt) : lerpPt 0 p q = p := by
  ext <;> simp [lerpPt]

lemma lerpPt_one (p q : Pt) : lerpPt 1 p q = q := by
  ext <;> simp [lerpPt]

lemma deCasteljau_zero : ∀ (l : List Pt) (p : Pt), deCasteljau 0 (p :: l) = p := by
  suffices H : ∀ (n : ℕ) (l : List Pt) (p : Pt), l.length = n → deCasteljau 0 (p :: l) = p by
    intro l p
    exact H l.length l p rfl
  intro n
  induction n using Nat.strong_induction_on with
  | _ n ih =>
    intro l p hl
    cases l with
    | nil => rw [deCasteljau]
    | cons q rest =>
      rw [deCasteljau]
      rw [show deCasteljauStep 0 (p :: q :: rest) = p :: deCasteljauStep 0 (q :: rest) from by
        rw [deCasteljauStep, lerpPt_zero]]
      refine ih (deCasteljauStep 0 (q :: rest)).length ?_ _ p rfl
      rw [deCasteljauStep_length]
      simp only [List.length_cons] at hl ⊢
      omega

lemma deCasteljauStep_one : ∀ l : List Pt, deCasteljauStep 1 l = l.tail := by
  intro l
  match l with
  | [] => rfl
  | [p] => rfl
  | p :: q :: rest =>
    rw [deCasteljauStep, lerpPt_one, List.tail_cons]
    have := deCasteljauStep_one (q :: rest)
    rw [this]
    simp

lemma deCasteljau_one : ∀ (l : List Pt) (p : Pt), deCasteljau 1 (p :: l) = l.getLastD p := by
  suffices H : ∀ (n : ℕ) (l : List Pt) (p : Pt), l.length = n → deCasteljau 1 (p :: l) = l.getLastD p by
    intro l p
    exact H l.length l p rfl
  intro n
  induction n using Nat.strong_induction_on with
  | _ n ih =>
    intro l p hl
    cases l with
    | nil => rw [deCasteljau]; rfl
    | cons q rest =>
      rw [deCasteljau]
      rw [show deCasteljauStep 1 (p :: q :: rest) = q :: rest from by
        rw [deCasteljauStep_one]; rfl]
      rw [List.getLastD_cons]
      simp only [List.length_cons] at hl
      exact ih rest.length (by omega) rest q rfl

lemma lerpPt_self (t : ℚ) (p : Pt) : lerpPt t p p = p := by
  ext <;> simp [lerpPt] <;> ring

lemma deCasteljauStep_const (t : ℚ) (p : Pt) :
    ∀ l, (∀ q ∈ l, q = p) → ∀ q ∈ deCasteljauStep t l, q = p := by
  intro l
  induction l with
  | nil => intro _ q hq; simp [deCasteljauStep] at hq
  | cons x rest ih =>
    intro hall q hq
    cases rest with
    | nil => simp [deCasteljauStep] at hq
    | cons y rest2 =>
      rw [deCasteljauStep] at hq
      rcases List.mem_cons.mp hq with h | h
      · have hx : x = p := hall x (by simp)
        have hy : y = p := hall y (by simp)
        rw [h, hx, hy, lerpPt_self]
      · exact ih (fun q hq2 => hall q (List.mem_cons_of_mem x hq2)) q h

lemma deCasteljau_const (t : ℚ) (p : Pt) :
    ∀ l, l ≠ [] → (∀ q ∈ l, q = p) → deCasteljau t l = p := by
  suffices H : ∀ (n : ℕ) (l : List Pt), l.length = n → l ≠ [] → (∀ q ∈ l, q = p) →
      deCasteljau t l = p by
    intro l hne hall
    exact H l.length l rfl hne hall
  intro n
  induction n using Nat.strong_induction_on with
  | _ n ih =>
    intro l hl hne hall
    cases l with
    | nil => exact absurd rfl hne
    | cons x rest =>
      cases rest with
      | nil =>
        rw [deCasteljau]
        exact hall x (by simp)
      | cons y rest2 =>
        rw [deCasteljau]
        have hstep := deCasteljauStep_const t p (x :: y :: rest2) hall
        have hlen : (deCasteljauStep t (x :: y :: rest2)).length = rest2.length + 1 := by
          rw [deCasteljauStep_length]; simp
        refine ih (deCasteljauStep t (x :: y :: rest2)).length ?_ _ rfl ?_ hstep
        · simp only [List.length_cons] at hl
          omega
        · intro hemp
          rw [hemp] at hlen
          simp at hlen

/-- C7: for every pair of endpoints, every control-point count and
randomness setting, and every choice of the random perturbations (and any
value of the abstracted `Math.sqrt`), the sampled path starts exactly at
`start`, ends exactly at `end`, and has at least 10 points; and the
De Casteljau evaluation returns the first point at `t = 0` and the last
point at `t = 1` for every non-empty control-point list. -/
theorem createBezierPath_endpoints (sqrtFn : ℚ → ℚ) (rand : ℕ → ℚ) (start endP : Pt)
    (count : ℕ) (randomness : ℚ) :
    (createBezierPath sqrtFn rand start endP count randomness).head? = some start ∧
    (createBezierPath sqrtFn rand start endP count randomness).getLast? = some endP ∧
    10 ≤ (createBezierPath sqrtFn rand start endP count randomness).length ∧
    (∀ (p : Pt) (l : List Pt), deCasteljau 0 (p :: l) = p) ∧
    (∀ (q : Pt) (m : List Pt), deCasteljau 1 (m ++ [q]) = q) := by
  have hlast : ∀ (q : Pt) (m : List Pt), deCasteljau 1 (m ++ [q]) = q := by
    intro q m
    cases m with
    | nil => rw [List.nil_append, deCasteljau]
    | cons x m2 =>
      rw [List.cons_append, deCasteljau_one, List.getLastD_concat]
  set N := bezierNumPoints sqrtFn start endP with hNdef
  have hN : 10 ≤ N := le_max_left _ _
  have hN0 : (N : ℚ) ≠ 0 := Nat.cast_ne_zero.mpr (by omega)
  set cps := bezierControlPoints sqrtFn rand start endP count randomness with hcps
  have hf0 : calculateBezierPoint start endP cps (easeT ((0 : ℕ) / (N : ℚ))) = start := by
    have h0 : easeT ((0 : ℕ) / (N : ℚ)) = 0 := by norm_num [easeT]
    rw [h0]
    unfold calculateBezierPoint
    exact deCasteljau_zero _ _
  have hfN : calculateBezierPoint start endP cps (easeT ((N : ℚ) / (N : ℚ))) = endP := by
    have h1 : easeT ((N : ℚ) / (N : ℚ)) = 1 := by
      rw [div_self hN0]
      norm_num [easeT]
    rw [h1]
    unfold calculateBezierPoint
    rw [show start :: (cps ++ [endP]) = (start :: cps) ++ [endP] from rfl]
    exact hlast endP (start :: cps)
  have hshape : createBezierPath sqrtFn rand start endP count randomness =
      (List.range (N + 1)).map (fun i : ℕ =>
        calculateBezierPoint start endP cps (easeT ((i : ℚ) / (N : ℚ)))) := rfl
  refine ⟨?_, ?_, ?_, fun p l => deCasteljau_zero l p, hlast⟩
  · rw [hshape, List.range_succ_eq_map, List.map_cons, List.head?_cons]
    exact congrArg some hf0
  · rw [hshape, List.range_succ, List.map_append, List.map_cons, List.map_nil,
      List.getLast?_concat]
    exact congrArg some hfN
  · rw [hshape]
    simp only [List.length_map, List.length_range]
    omega

/-- C8 amended: on zero-length input (`start = end`) the sampler returns a
path of `max(10, 0) + 1 = 11` points, every one of them equal to `start` —
not a single-point path — and the only division performed is by
`numPoints = 10`, never by the zero distance (the distance is only ever
multiplied).  Uses only `Math.sqrt(0) = 0`. -/
theorem createBezierPath_degenerate (sqrtFn : ℚ → ℚ) (rand : ℕ → ℚ) (p : Pt)
    (count : ℕ) (randomness : ℚ) (hs : sqrtFn 0 = 0) :
    createBezierPath sqrtFn rand p p count randomness = List.replicate 11 p := by
  have hzero : (p.x - p.x) ^ 2 + (p.y - p.y) ^ 2 = 0 := by ring
  have hcp : ∀ q ∈ bezierControlPoints sqrtFn rand p p count randomness, q = p := by
    intro q hq
    unfold bezierControlPoints at hq
    simp only [List.mem_map, List.mem_range] at hq
    obtain ⟨i, _, hqe⟩ := hq
    rw [← hqe]
    unfold getPointWithVariance
    rw [hzero, hs]
    ext <;> simp
  have hnum : bezierNumPoints sqrtFn p p = 10 := by
    unfold bezierNumPoints
    rw [hzero, hs]
    norm_num
  unfold createBezierPath
  rw [hnum]
  refine List.eq_replicate_iff.mpr ⟨by simp, ?_⟩
  intro b hb
  simp only [List.mem_map, List.mem_range] at hb
  obtain ⟨i, _, hbe⟩ := hb
  rw [← hbe]
  unfold calculateBezierPoint
  refine deCasteljau_const _ p _ (by simp) ?_
  intro q hq
  rcases List.mem_cons.mp hq with h | h
  · exact h
  · rcases List.mem_append.mp h with h2 | h2
    · exact hcp q h2
    · simpa using h2

/-- C8 counterexample: for `start = end = (0,0)` the path has 11 points,
not 1. -/
theorem createBezierPath_degenerate_counterexample :
    (createBezierPath (fun _ => 0) (fun _ => 0) ⟨0, 0⟩ ⟨0, 0⟩ 2 (1 / 2)).length = 11 ∧
    (createBezierPath (fun _ => 0) (fun _ => 0) ⟨0, 0⟩ ⟨0, 0⟩ 2 (1 / 2)).length ≠ 1 := by
  have h : (createBezierPath (fun _ => 0) (fun _ => 0) ⟨0, 0⟩ ⟨0, 0⟩ 2 (1 / 2)).length = 11 := by
    unfold createBezierPath bezierNumPoints
    norm_num
  exact ⟨h, by rw [h]; norm_num⟩

/-- Instantiation of `createBezierPath_degenerate` at the origin. -/
theorem createBezierPath_degenerate_witness :
    createBezierPath (fun _ => 0) (fun _ => 0) ⟨0, 0⟩ ⟨0, 0⟩ 2 (1 / 2) =
      List.replicate 11 ⟨0, 0⟩ :=
  createBezierPath_degenerate (fun _ => 0) (fun _ => 0) ⟨0, 0⟩ 2 (1 / 2) rfl


/-! ## Cookie persistence round-trip -/

lemma splitOnChar_ne_nil (sep : Char) (l : List Char) : splitOnChar sep l ≠ [] := by
  cases l with
  | nil => simp [splitOnChar]
  | cons c cs =>
    rw [splitOnChar]
    rcases hsp : splitOnChar sep cs with _ | ⟨h, t⟩
    · simp
    · dsimp only
      split <;> simp

lemma splitOnChar_not_mem (sep : Char) (l : List Char) (h : sep ∉ l) :
    splitOnChar sep l = [l] := by
  induction l with
  | nil => rfl
  | cons c cs ih =>
    rw [splitOnChar]
    have hcs : sep ∉ cs := fun hm => h (List.mem_cons_of_mem c hm)
    rw [ih hcs]
    have hc : ¬ c = sep := fun he => h (he ▸ List.mem_cons_self c cs)
    simp [hc]

lemma splitOnChar_append (sep : Char) (a rest : List Char) (h : sep ∉ a) :
    splitOnChar sep (a ++ sep :: rest) = a :: splitOnChar sep rest := by
  induction a with
  | nil =>
    rw [List.nil_append, splitOnChar]
    rcases hsp : splitOnChar sep rest with _ | ⟨hh, tt⟩
    · exact absurd hsp (splitOnChar_ne_nil sep rest)
    · simp
  | cons c a2 ih =>
    have hc : ¬ c = sep := fun he => h (he ▸ List.mem_cons_self c a2)
    have ha2 : sep ∉ a2 := fun hm => h (List.mem_cons_of_mem c hm)
    rw [List.cons_append, splitOnChar, ih ha2]
    simp [hc]

lemma splitOnChar_jsJoin_single (sep : Char) :
    ∀ (l : List Char) (ls : List (List Char)), sep ∉ l → (∀ x ∈ ls, sep ∉ x) →
      splitOnChar sep (jsJoin [sep] (l :: ls)) = l :: ls := by
  intro l ls
  induction ls generalizing l with
  | nil =>
    intro hl _
    rw [jsJoin]
    exact splitOnChar_not_mem sep l hl
  | cons l2 rest ih =>
    intro hl hls
    rw [jsJoin]
    rw [show l ++ [sep] ++ jsJoin [sep] (l2 :: rest) = l ++ sep :: jsJoin [sep] (l2 :: rest) from by
      simp]
    rw [splitOnChar_append sep l _ hl]
    rw [ih l2 (hls l2 (by simp)) (fun x hx => hls x (List.mem_cons_of_mem l2 hx))]

lemma splitOnChar_jsJoin_semispace :
    ∀ (ls : List (List Char)) (l : List Char), (';' : Char) ∉ l → (∀ x ∈ ls, (';' : Char) ∉ x) →
      splitOnChar ';' (jsJoin "; ".data (l :: ls)) = l :: ls.map (fun x => ' ' :: x) := by
  intro ls
  induction ls with
  | nil =>
    intro l hl _
    rw [jsJoin, List.map_nil]
    exact splitOnChar_not_mem ';' l hl
  | cons l2 rest ih =>
    intro l hl hls
    rw [jsJoin]
    rw [show l ++ "; ".data ++ jsJoin "; ".data (l2 :: rest) =
        l ++ ';' :: (' ' :: jsJoin "; ".data (l2 :: rest)) from by simp]
    rw [splitOnChar_append ';' l _ hl]
    rw [show splitOnChar ';' (' ' :: jsJoin "; ".data (l2 :: rest)) =
        (' ' :: (splitOnChar ';' (jsJoin "; ".data (l2 :: rest))).headD []) ::
          (splitOnChar ';' (jsJoin "; ".data (l2 :: rest))).tail from by
      rw [splitOnChar]
      rcases hsp : splitOnChar ';' (jsJoin "; ".data (l2 :: rest)) with _ | ⟨hh, tt⟩
      · exact absurd hsp (splitOnChar_ne_nil _ _)
      · simp]
    rw [ih l2 (hls l2 (by simp)) (fun x hx => hls x (List.mem_cons_of_mem l2 hx))]
    simp

lemma dropWhile_eq_self_of_all (p : Char → Bool) (l : List Char)
    (h : ∀ c ∈ l, p c = false) : l.dropWhile p = l := by
  cases l with
  | nil => rfl
  | cons c cs => simp [List.dropWhile, h c (by simp)]

lemma jsTrim_eq_self_of_no_ws (l : List Char)
    (h : ∀ c ∈ l, isJsWhitespace c = false) : jsTrim l = l := by
  unfold jsTrim
  rw [dropWhile_eq_self_of_all _ l h]
  rw [dropWhile_eq_self_of_all _ l.reverse (fun c hc => h c (List.mem_reverse.mp hc))]
  exact List.reverse_reverse l

lemma jsTrim_cons_space (l : List Char) : jsTrim (' ' :: l) = jsTrim l := by
  unfold jsTrim
  simp [List.dropWhile, isJsWhitespace]

lemma mem_dropWhile_of_mem (p : Char → Bool) (c : Char) :
    ∀ l : List Char, c ∈ l → p c = false → c ∈ l.dropWhile p := by
  intro l
  induction l with
  | nil => intro h _; simp at h
  | cons x xs ih =>
    intro hm hp
    rcases List.mem_cons.mp hm with he | ht
    · subst he
      simp [List.dropWhile, hp]
    · by_cases hx : p x = true
      · rw [List.dropWhile_cons_of_pos hx]
        exact ih ht hp
      · rw [List.dropWhile_cons_of_neg hx]
        exact List.mem_cons_of_mem x ht

lemma jsTrim_ne_nil_of_non_ws_mem (l : List Char) (c : Char)
    (hm : c ∈ l) (hc : isJsWhitespace c = false) : jsTrim l ≠ [] := by
  intro hcontra
  unfold jsTrim at hcontra
  rw [List.reverse_eq_nil_iff, List.dropWhile_eq_nil_iff] at hcontra
  have h1 : c ∈ l.dropWhile isJsWhitespace := mem_dropWhile_of_mem _ c l hm hc
  have h2 : c ∈ (l.dropWhile isJsWhitespace).reverse := List.mem_reverse.mpr h1
  have := hcontra c h2
  rw [hc] at this
  exact Bool.false_ne_true this

lemma cookieChars_facts : ∀ c ∈ cookieChars,
    isJsWhitespace c = false ∧ (c == '=') = false ∧ (c == ';') = false ∧
    (c == '\n') = false ∧ jsToLowerChar c ∈ cookieChars ∧
    isJsWhitespace (jsToLowerChar c) = false := by decide

lemma plain_not_mem (l : List Char) (h : plainCookieStr l = true) :
    ('=' : Char) ∉ l ∧ (';' : Char) ∉ l ∧ ('\n' : Char) ∉ l ∧
    (∀ c ∈ l, isJsWhitespace c = false) ∧
    (∀ c ∈ jsToLower l, isJsWhitespace c = false) := by
  unfold plainCookieStr at h
  rw [List.all_eq_true] at h
  have hfacts : ∀ c ∈ l, isJsWhitespace c = false ∧ (c == '=') = false ∧ (c == ';') = false ∧
      (c == '\n') = false ∧ jsToLowerChar c ∈ cookieChars ∧
      isJsWhitespace (jsToLowerChar c) = false := by
    intro c hc
    have := h c hc
    rw [List.contains_eq_any_beq] at this
    have hmem : c ∈ cookieChars := by
      rw [List.any_eq_true] at this
      obtain ⟨x, hx, hbeq⟩ := this
      rw [beq_iff_eq] at hbeq
      rwa [hbeq]
    exact cookieChars_facts c hmem
  refine ⟨?_, ?_, ?_, ?_, ?_⟩
  · intro hm
    have := (hfacts '=' hm).2.1
    simp at this
  · intro hm
    have := (hfacts ';' hm).2.2.1
    simp at this
  · intro hm
    have := (hfacts '\n' hm).2.2.2.1
    simp at this
  · exact fun c hc => (hfacts c hc).1
  · intro c hc
    unfold jsToLower at hc
    rw [List.mem_map] at hc
    obtain ⟨x, hx, hxe⟩ := hc
    rw [← hxe]
    exact (hfacts x hx).2.2.2.2.2

lemma applyCookieAttr_domain (cookie : CookieParams) (d : List Char)
    (hd : plainCookieStr d = true) :
    applyCookieAttr cookie ('d' :: 'o' :: 'm' :: 'a' :: 'i' :: 'n' :: '=' :: d) =
      { cookie with domain := some (jsToLower d) } := by
  obtain ⟨hdeq, -, -, -, hlow⟩ := plain_not_mem d hd
  unfold applyCookieAttr
  rw [show ('d' :: 'o' :: 'm' :: 'a' :: 'i' :: 'n' :: '=' :: d) =
      ['d', 'o', 'm', 'a', 'i', 'n'] ++ '=' :: d from rfl]
  rw [splitOnChar_append '=' _ _ (by decide), splitOnChar_not_mem '=' d hdeq]
  simp only [List.map_cons, List.map_nil, List.headD_cons]
  rw [show jsTrim (jsToLower ['d', 'o', 'm', 'a', 'i', 'n']) = ['d', 'o', 'm', 'a', 'i', 'n'] from by
    decide]
  rw [jsTrim_eq_self_of_no_ws _ hlow]
  rfl

lemma applyCookieAttr_path (cookie : CookieParams) (d : List Char)
    (hd : plainCookieStr d = true) :
    applyCookieAttr cookie ('p' :: 'a' :: 't' :: 'h' :: '=' :: d) =
      { cookie with path := some (jsToLower d) } := by
  obtain ⟨hdeq, -, -, -, hlow⟩ := plain_not_mem d hd
  unfold applyCookieAttr
  rw [show ('p' :: 'a' :: 't' :: 'h' :: '=' :: d) = ['p', 'a', 't', 'h'] ++ '=' :: d from rfl]
  rw [splitOnChar_append '=' _ _ (by decide), splitOnChar_not_mem '=' d hdeq]
  simp only [List.map_cons, List.map_nil, List.headD_cons]
  rw [show jsTrim (jsToLower ['p', 'a', 't', 'h']) = ['p', 'a', 't', 'h'] from by decide]
  rw [jsTrim_eq_self_of_no_ws _ hlow]
  rfl

lemma applyCookieAttr_samesite (cookie : CookieParams) (d : List Char)
    (hd : plainCookieStr d = true) :
    applyCookieAttr cookie ('s' :: 'a' :: 'm' :: 'e' :: 's' :: 'i' :: 't' :: 'e' :: '=' :: d) =
      { cookie with sameSite := some (jsToLower d) } := by
  obtain ⟨hdeq, -, -, -, hlow⟩ := plain_not_mem d hd
  unfold applyCookieAttr
  rw [show ('s' :: 'a' :: 'm' :: 'e' :: 's' :: 'i' :: 't' :: 'e' :: '=' :: d) =
      ['s', 'a', 'm', 'e', 's', 'i', 't', 'e'] ++ '=' :: d from rfl]
  rw [splitOnChar_append '=' _ _ (by decide), splitOnChar_not_mem '=' d hdeq]
  simp only [List.map_cons, List.map_nil, List.headD_cons]
  rw [show jsTrim (jsToLower ['s', 'a', 'm', 'e', 's', 'i', 't', 'e']) =
      ['s', 'a', 'm', 'e', 's', 'i', 't', 'e'] from by decide]
  rw [jsTrim_eq_self_of_no_ws _ hlow]
  rfl

lemma applyCookieAttr_secure (cookie : CookieParams) :
    applyCookieAttr cookie ['s', 'e', 'c', 'u', 'r', 'e'] = { cookie with secure := true } := by
  unfold applyCookieAttr
  rw [splitOnChar_not_mem '=' _ (by decide)]
  rfl

lemma jsToLower_nil : jsToLower [] = [] := rfl



lemma plainSavedCookie_fields (c : SavedCookie) (h : plainSavedCookie c = true) :
    plainCookieStr c.name = true ∧ plainCookieStr c.value = true ∧
    plainCookieStr c.domain = true ∧ plainCookieStr c.path = true ∧
    plainCookieStr c.sameSite = true := by
  unfold plainSavedCookie at h
  simp only [Bool.and_eq_true] at h
  exact ⟨h.1.1.1.1, h.1.1.1.2, h.1.1.2, h.1.2, h.2⟩

lemma parseCookieLine_serializeCookie (c : SavedCookie) (h : plainSavedCookie c = true) :
    parseCookieLine (serializeCookie c) = parsedOfSaved c := by
  obtain ⟨hn, hv, hd, hp, hss⟩ := plainSavedCookie_fields c h
  obtain ⟨hneq, hnsemi, -, hnws, -⟩ := plain_not_mem _ hn
  obtain ⟨hveq, hvsemi, -, hvws, -⟩ := plain_not_mem _ hv
  obtain ⟨-, hdsemi, -, hdws, -⟩ := plain_not_mem _ hd
  obtain ⟨-, hpsemi, -, hpws, -⟩ := plain_not_mem _ hp
  obtain ⟨-, hsssemi, -, hssws, -⟩ := plain_not_mem _ hss
  set p0 : List Char := c.name ++ '=' :: c.value with hp0
  have hp0semi : (';' : Char) ∉ p0 := by
    rw [hp0]
    intro hm
    rcases List.mem_append.mp hm with hm1 | hm2
    · exact hnsemi hm1
    · rcases List.mem_cons.mp hm2 with hm3 | hm4
      · exact absurd hm3.symm (by decide)
      · exact hvsemi hm4
  have hp0ws : ∀ x ∈ p0, isJsWhitespace x = false := by
    rw [hp0]
    intro x hm
    rcases List.mem_append.mp hm with hm1 | hm2
    · exact hnws x hm1
    · rcases List.mem_cons.mp hm2 with hm3 | hm4
      · rw [hm3]; decide
      · exact hvws x hm4
  set dAttr : List (List Char) :=
    if c.domain = [] then [] else ["domain".data ++ '=' :: c.domain] with hdA
  set pAttr : List (List Char) :=
    if c.path = [] then [] else ["path".data ++ '=' :: c.path] with hpA
  set sAttr : List (List Char) := if c.secure then ["secure".data] else [] with hsA
  set ssAttr : List (List Char) :=
    if c.sameSite = [] then [] else ["samesite".data ++ '=' :: c.sameSite] with hssA
  have hser : serializeCookie c = jsJoin "; ".data (p0 :: (dAttr ++ pAttr ++ sAttr ++ ssAttr)) := by
    rw [serializeCookie, hp0, hdA, hpA, hsA, hssA]
    congr 1
  have hattrsemi : ∀ x ∈ dAttr ++ pAttr ++ sAttr ++ ssAttr, (';' : Char) ∉ x := by
    intro x hx
    rw [hdA, hpA, hsA, hssA] at hx
    simp only [List.mem_append] at hx
    rcases hx with ((hx1 | hx2) | hx3) | hx4
    · by_cases hde : c.domain = []
      · simp [hde] at hx1
      · simp only [hde, ite_false, List.mem_singleton] at hx1
        rw [hx1]
        intro hm
        rcases List.mem_append.mp hm with hm1 | hm2
        · exact absurd hm1 (by decide)
        · rcases List.mem_cons.mp hm2 with hm3 | hm4
          · exact absurd hm3.symm (by decide)
          · exact hdsemi hm4
    · by_cases hpe : c.path = []
      · simp [hpe] at hx2
      · simp only [hpe, ite_false, List.mem_singleton] at hx2
        rw [hx2]
        intro hm
        rcases List.mem_append.mp hm with hm1 | hm2
        · exact absurd hm1 (by decide)
        · rcases List.mem_cons.mp hm2 with hm3 | hm4
          · exact absurd hm3.symm (by decide)
          · exact hpsemi hm4
    · by_cases hse : c.secure
      · simp only [hse, ite_true, List.mem_singleton] at hx3
        rw [hx3]
        decide
      · simp [hse] at hx3
    · by_cases hsse : c.sameSite = []
      · simp [hsse] at hx4
      · simp only [hsse, ite_false, List.mem_singleton] at hx4
        rw [hx4]
        intro hm
        rcases List.mem_append.mp hm with hm1 | hm2
        · exact absurd hm1 (by decide)
        · rcases List.mem_cons.mp hm2 with hm3 | hm4
          · exact absurd hm3.symm (by decide)
          · exact hsssemi hm4
  have hattrws : ∀ x ∈ dAttr ++ pAttr ++ sAttr ++ ssAttr, ∀ y ∈ x, isJsWhitespace y = false := by
    have hdomlit : ∀ z ∈ ("domain".data ++ ['=']), isJsWhitespace z = false := by decide
    have hpathlit : ∀ z ∈ ("path".data ++ ['=']), isJsWhitespace z = false := by decide
    have hseclit : ∀ z ∈ ("secure".data), isJsWhitespace z = false := by decide
    have hsslit : ∀ z ∈ ("samesite".data ++ ['=']), isJsWhitespace z = false := by decide
    intro x hx
    rw [hdA, hpA, hsA, hssA] at hx
    simp only [List.mem_append] at hx
    rcases hx with ((hx1 | hx2) | hx3) | hx4
    · by_cases hde : c.domain = []
      · simp [hde] at hx1
      · simp only [hde, ite_false, List.mem_singleton] at hx1
        rw [hx1]
        intro y hm
        rcases List.mem_append.mp hm with hm1 | hm2
        · exact hdomlit y (List.mem_append.mpr (Or.inl hm1))
        · rcases List.mem_cons.mp hm2 with hm3 | hm4
          · rw [hm3]; decide
          · exact hdws y hm4
    · by_cases hpe : c.path = []
      · simp [hpe] at hx2
      · simp only [hpe, ite_false, List.mem_singleton] at hx2
        rw [hx2]
        intro y hm
        rcases List.mem_append.mp hm with hm1 | hm2
        · exact hpathlit y (List.mem_append.mpr (Or.inl hm1))
        · rcases List.mem_cons.mp hm2 with hm3 | hm4
          · rw [hm3]; decide
          · exact hpws y hm4
    · by_cases hse : c.secure
      · simp only [hse, ite_true, List.mem_singleton] at hx3
        rw [hx3]
        exact hseclit
      · simp [hse] at hx3
    · by_cases hsse : c.sameSite = []
      · simp [hsse] at hx4
      · simp only [hsse, ite_false, List.mem_singleton] at hx4
        rw [hx4]
        intro y hm
        rcases List.mem_append.mp hm with hm1 | hm2
        · exact hsslit y (List.mem_append.mpr (Or.inl hm1))
        · rcases List.mem_cons.mp hm2 with hm3 | hm4
          · rw [hm3]; decide
          · exact hssws y hm4
  have hsplit : splitOnChar ';' (serializeCookie c) =
      p0 :: (dAttr ++ pAttr ++ sAttr ++ ssAttr).map (fun x => ' ' :: x) := by
    rw [hser]
    exact splitOnChar_jsJoin_semispace _ p0 hp0semi hattrsemi
  have hparts : (splitOnChar ';' (serializeCookie c)).map jsTrim =
      p0 :: (dAttr ++ pAttr ++ sAttr ++ ssAttr) := by
    rw [hsplit, List.map_cons, jsTrim_eq_self_of_no_ws p0 hp0ws, List.map_map]
    congr 1
    refine List.map_congr_left ?_ |>.trans (List.map_id _)
    intro x hx
    simp only [Function.comp_apply, id_eq]
    rw [jsTrim_cons_space]
    exact jsTrim_eq_self_of_no_ws x (hattrws x hx)
  have hnv : splitOnChar '=' p0 = [c.name, c.value] := by
    rw [hp0, splitOnChar_append '=' _ _ hneq, splitOnChar_not_mem '=' _ hveq]
  unfold parseCookieLine
  rw [hparts]
  simp only [List.headD_cons, List.tail_cons]
  rw [hnv]
  have hinit : parseCookieInit [c.name, c.value] =
      { name := c.name, value := c.value, domain := some [], path := some "/".data,
        secure := false, sameSite := some "None".data } := rfl
  rw [hinit]
  clear hser hsplit hparts hattrsemi hattrws hnv hinit hp0semi hp0ws
  by_cases hde : c.domain = [] <;> by_cases hpe : c.path = [] <;>
    by_cases hse : c.secure = true <;> by_cases hsse : c.sameSite = [] <;>
    simp only [hdA, hpA, hsA, hssA, hde, hpe, hse, hsse, ite_true, ite_false,
      List.nil_append, List.append_nil,
      List.foldl_append, List.foldl_cons, List.foldl_nil] <;>
    simp [applyCookieAttr_domain, applyCookieAttr_path, applyCookieAttr_samesite,
      applyCookieAttr_secure, hd, hp, hss, parsedOfSaved, hde, hpe, hse, hsse, jsToLower_nil]



lemma mem_jsJoin_elim (s : List Char) :
    ∀ (ls : List (List Char)) (y : Char), y ∈ jsJoin s ls → y ∈ s ∨ ∃ l ∈ ls, y ∈ l := by
  intro ls
  induction ls with
  | nil => intro y hy; simp [jsJoin] at hy
  | cons l ls2 ih =>
    intro y hy
    cases ls2 with
    | nil =>
      rw [jsJoin] at hy
      exact Or.inr ⟨l, by simp, hy⟩
    | cons l2 rest =>
      rw [jsJoin] at hy
      rcases List.mem_append.mp hy with hy1 | hy2
      · rcases List.mem_append.mp hy1 with hy3 | hy4
        · exact Or.inr ⟨l, by simp, hy3⟩
        · exact Or.inl hy4
      · rcases ih y hy2 with hs | ⟨l3, hl3, hyl3⟩
        · exact Or.inl hs
        · exact Or.inr ⟨l3, List.mem_cons_of_mem l hl3, hyl3⟩

lemma mem_jsJoin_intro (s : List Char) :
    ∀ (ls : List (List Char)) (l : List Char) (y : Char), l ∈ ls → y ∈ l → y ∈ jsJoin s ls := by
  intro ls
  induction ls with
  | nil => intro l y hl _; simp at hl
  | cons l0 ls2 ih =>
    intro l y hl hy
    cases ls2 with
    | nil =>
      rw [jsJoin]
      rcases List.mem_cons.mp hl with he | hm
      · rwa [← he]
      · simp at hm
    | cons l2 rest =>
      rw [jsJoin]
      rcases List.mem_cons.mp hl with he | hm
      · exact List.mem_append.mpr (Or.inl (List.mem_append.mpr (Or.inl (he ▸ hy))))
      · exact List.mem_append.mpr (Or.inr (ih l y hm hy))

lemma serializeCookie_no_newline (c : SavedCookie) (h : plainSavedCookie c = true) :
    ('\n' : Char) ∉ serializeCookie c := by
  obtain ⟨hn, hv, hd, hp, hss⟩ := plainSavedCookie_fields c h
  obtain ⟨-, -, hnnl, -, -⟩ := plain_not_mem _ hn
  obtain ⟨-, -, hvnl, -, -⟩ := plain_not_mem _ hv
  obtain ⟨-, -, hdnl, -, -⟩ := plain_not_mem _ hd
  obtain ⟨-, -, hpnl, -, -⟩ := plain_not_mem _ hp
  obtain ⟨-, -, hssnl, -, -⟩ := plain_not_mem _ hss
  intro hm
  unfold serializeCookie at hm
  rcases mem_jsJoin_elim _ _ _ hm with hs | ⟨l, hl, hyl⟩
  · exact absurd hs (by decide)
  · simp only [List.mem_append] at hl
    rcases hl with ((((hl1 | hl2) | hl3) | hl4) | hl5)
    · rw [List.mem_singleton] at hl1
      rw [hl1] at hyl
      rcases List.mem_append.mp hyl with hm1 | hm2
      · exact hnnl hm1
      · rcases List.mem_cons.mp hm2 with hm3 | hm4
        · exact absurd hm3 (by decide)
        · exact hvnl hm4
    · by_cases hde : c.domain = []
      · simp [hde] at hl2
      · simp only [hde, ite_false, List.mem_singleton] at hl2
        rw [hl2] at hyl
        rcases List.mem_append.mp hyl with hm1 | hm2
        · exact absurd hm1 (by decide)
        · rcases List.mem_cons.mp hm2 with hm3 | hm4
          · exact absurd hm3 (by decide)
          · exact hdnl hm4
    · by_cases hpe : c.path = []
      · simp [hpe] at hl3
      · simp only [hpe, ite_false, List.mem_singleton] at hl3
        rw [hl3] at hyl
        rcases List.mem_append.mp hyl with hm1 | hm2
        · exact absurd hm1 (by decide)
        · rcases List.mem_cons.mp hm2 with hm3 | hm4
          · exact absurd hm3 (by decide)
          · exact hpnl hm4
    · by_cases hse : c.secure
      · simp only [hse, ite_true, List.mem_singleton] at hl4
        rw [hl4] at hyl
        exact absurd hyl (by decide)
      · simp [hse] at hl4
    · by_cases hsse : c.sameSite = []
      · simp [hsse] at hl5
      · simp only [hsse, ite_false, List.mem_singleton] at hl5
        rw [hl5] at hyl
        rcases List.mem_append.mp hyl with hm1 | hm2
        · exact absurd hm1 (by decide)
        · rcases List.mem_cons.mp hm2 with hm3 | hm4
          · exact absurd hm3 (by decide)
          · exact hssnl hm4

lemma jsTrim_serializeCookie_ne_nil (c : SavedCookie) :
    jsTrim (serializeCookie c) ≠ [] := by
  have hmem : ('=' : Char) ∈ serializeCookie c := by
    unfold serializeCookie
    refine mem_jsJoin_intro _ _ (c.name ++ '=' :: c.value) '=' ?_ ?_
    · simp
    · exact List.mem_append.mpr (Or.inr (List.mem_cons_self _ _))
  exact jsTrim_ne_nil_of_non_ws_mem _ '=' hmem (by decide)

/-- C9 amended: for every list of cookie records whose string fields are
made of plain cookie characters (no separators, no whitespace), parsing
the blob produced by `saveCookiesToFile` yields the same number of entries,
and each entry keeps the original `name`, `value` and `secure` flag — but
`domain`, `path` and `sameSite` come back lowercased, because the parser
lowercases attribute values (`attr.split('=').map(s =>
s.toLowerCase().trim())`); an empty `path`/`sameSite` is replaced by the
parser defaults `'/'` and `'None'`. -/
theorem cookie_roundtrip_lowercases (cs : List SavedCookie)
    (h : ∀ c ∈ cs, plainSavedCookie c = true) :
    parseCookieString (saveCookiesToFile cs) = cs.map parsedOfSaved := by
  cases cs with
  | nil => rfl
  | cons c0 rest =>
    unfold saveCookiesToFile parseCookieString
    rw [List.map_cons]
    rw [splitOnChar_jsJoin_single '\n' (serializeCookie c0) (rest.map serializeCookie)
      (serializeCookie_no_newline c0 (h c0 (by simp)))
      (by
        intro x hx
        rw [List.mem_map] at hx
        obtain ⟨c2, hc2, hce⟩ := hx
        rw [← hce]
        exact serializeCookie_no_newline c2 (h c2 (List.mem_cons_of_mem c0 hc2)))]
    rw [List.filter_eq_self.mpr (by
      intro a ha
      have hane : jsTrim a ≠ [] := by
        rcases List.mem_cons.mp ha with he | hm
        · rw [he]; exact jsTrim_serializeCookie_ne_nil c0
        · rw [List.mem_map] at hm
          obtain ⟨c2, -, hce⟩ := hm
          rw [← hce]
          exact jsTrim_serializeCookie_ne_nil c2
      simpa using hane)]
    rw [← List.map_cons serializeCookie c0 rest, List.map_map]
    refine List.map_congr_left ?_
    intro c hc
    simp only [Function.comp_apply]
    exact parseCookieLine_serializeCookie c (h c hc)

/-- C9 counterexample: a cookie saved with `sameSite = 'Lax'` (one of the
three values the source's `CookieParams` type allows) parses back with
`sameSite = 'lax'`, not the original `'Lax'`: the round-trip does not
preserve the `sameSite` attribute. -/
theorem cookie_roundtrip_samesite_counterexample :
    (parseCookieString (saveCookiesToFile [laxCookie])).map (fun p => p.sameSite) =
      [some "lax".data] ∧
    (parseCookieString (saveCookiesToFile [laxCookie])).map (fun p => p.sameSite) ≠
      [some laxCookie.sameSite] := by
  decide

/-- Instantiation of `cookie_roundtrip_lowercases` at the one-element list
`[laxCookie]`. -/
theorem cookie_roundtrip_lowercases_witness :
    parseCookieString (saveCookiesToFile [laxCookie]) = [laxCookie].map parsedOfSaved :=
  cookie_roundtrip_lowercases [laxCookie] (by decide)

end OzonScraper
